import Mathlib

/-!
Verification development for the RaktSetu blood-bank coordination backend.

Shallow embedding of the inventory ledger (`BloodInventory` model and the
`/inventory` routes), the donor reminder scheduler (`isDonorEligible`,
`getEligibleDate`, the `/reminders` routes and `Notification` model) and the
hospital location search (`Hospital.searchByLocation`), together with proofs
of the behavioural properties stated for them.

Conventions of the embedding:
* MongoDB collections are lists of records in insertion order; `findOne`
  returns the first match, `create` appends, `save` after an in-place field
  mutation replaces the first matching record.
* JavaScript `Date` values are modelled by their civil decomposition
  (year, 0-based month, day-of-month, milliseconds within the day) in UTC,
  together with the millisecond timestamp they denote.  `setMonth` follows the
  ECMAScript `MakeDay` semantics: the day-of-month is kept and overflow past
  the end of the target month rolls into the following month.
* Timestamps used in comparisons are integers (milliseconds since the epoch).
-/

namespace RaktSetu

/-! ## Calendar arithmetic (ECMAScript `Date`, UTC) -/

/-- Milliseconds in one day. -/
def msPerDay : Int := 86400000

/-- Gregorian leap-year test. -/
def isLeap (y : Nat) : Bool :=
  (y % 4 == 0 && y % 100 != 0) || y % 400 == 0

/-- Days in a given year. -/
def daysInYear (y : Nat) : Nat :=
  if isLeap y then 366 else 365

/-- Days in month `m` (0-based, JavaScript style) of year `y`. -/
def daysInMonth (y : Nat) (m : Nat) : Nat :=
  match m with
  | 0 => 31 | 1 => if isLeap y then 29 else 28 | 2 => 31 | 3 => 30
  | 4 => 31 | 5 => 30 | 6 => 31 | 7 => 31
  | 8 => 30 | 9 => 31 | 10 => 30 | _ => 31

/-- Days from 1970-01-01 to the start of year `1970 + n`. -/
def yearsDays : Nat → Nat
  | 0 => 0
  | n + 1 => yearsDays n + daysInYear (1970 + n)

/-- Days from the start of year `y` to the start of its month `m` (0-based). -/
def cumMonthDays (y : Nat) : Nat → Nat
  | 0 => 0
  | m + 1 => cumMonthDays y m + daysInMonth y m

/-- Day number (days since 1970-01-01) of the civil date `(y, m, d)` with
`m` 0-based and `d` 1-based; the ECMAScript `MakeDay` for years `≥ 1970`. -/
def daysFromCivil (y m d : Nat) : Nat :=
  yearsDays (y - 1970) + cumMonthDays y m + (d - 1)

/-- A JavaScript `Date` after the epoch, in its UTC civil decomposition:
`year`, 0-based `month`, 1-based `day`, and milliseconds within the day. -/
structure JSDate where
  year : Nat
  month : Nat
  day : Nat
  msOfDay : Nat
  deriving DecidableEq, Repr

/-- The decomposition denotes an actual calendar date after the epoch. -/
def JSDate.ValidDate (t : JSDate) : Prop :=
  1970 ≤ t.year ∧ t.month ≤ 11 ∧ 1 ≤ t.day ∧ t.day ≤ daysInMonth t.year t.month
    ∧ t.msOfDay < 86400000

instance (t : JSDate) : Decidable t.ValidDate := by
  unfold JSDate.ValidDate; infer_instance

/-- Millisecond timestamp of a `JSDate` (its ECMAScript time value). -/
def JSDate.toMillis (t : JSDate) : Int :=
  msPerDay * (daysFromCivil t.year t.month t.day : Int) + (t.msOfDay : Int)

/-- Timestamp produced by `d.setMonth(d.getMonth() + 3)` in ECMAScript:
the month field is incremented by 3 (carrying into the year), the
day-of-month and time are kept, and `MakeDay` normalises an overflowing
day-of-month into the following month. -/
def addThreeMonthsMillis (t : JSDate) : Int :=
  let m3 := t.month + 3
  let y := t.year + m3 / 12
  let m := m3 % 12
  msPerDay * ((daysFromCivil y m 1 + (t.day - 1) : Nat) : Int) + (t.msOfDay : Int)

/-! ## Donor eligibility (`isDonorEligible` / `getEligibleDate`,
`backend/routes/hospital.js`) -/

/-- `isDonorEligible(lastDonationDate)` evaluated when the current time is
`now` (milliseconds): a donor who never donated is eligible; otherwise the
donor is eligible once `now` reaches the last donation date plus three
months (JavaScript `setMonth` arithmetic). -/
def isDonorEligible (lastDonation : Option JSDate) (now : Int) : Bool :=
  match lastDonation with
  | none => true
  | some ld => decide (now ≥ addThreeMonthsMillis ld)

/-- `getEligibleDate(lastDonationDate)` as a timestamp: the current time for a
donor who never donated, otherwise the last donation date plus three months. -/
def getEligibleMillis (lastDonation : Option JSDate) (now : Int) : Int :=
  match lastDonation with
  | none => now
  | some ld => addThreeMonthsMillis ld

/-! ## Inventory ledger (`backend/models/BloodInventory.js` and the
`/inventory` routes of `backend/routes/hospital.js`) -/

/-- A document of the `BloodInventory` collection. -/
structure InventoryRecord where
  hospital_id : Nat
  blood_group : String
  units_available : Int
  min_threshold : Int
  last_updated : Int
  deriving DecidableEq, Repr

/-- Errors thrown by the inventory statics. -/
inductive InvError where
  | notFound
  | insufficientStock
  deriving DecidableEq, Repr

/-- The filter `{ hospital_id: h, blood_group: bg }`. -/
def invKeyMatch (h : Nat) (bg : String) (r : InventoryRecord) : Bool :=
  r.hospital_id == h && r.blood_group == bg

/-- `findOne({ hospital_id: h, blood_group: bg })`: first matching document. -/
def invFindOne (db : List InventoryRecord) (h : Nat) (bg : String) :
    Option InventoryRecord :=
  db.find? (invKeyMatch h bg)

/-- Saving a mutated document: replace the first `(h, bg)` match by `r'`. -/
def replaceFirst (db : List InventoryRecord) (h : Nat) (bg : String)
    (r' : InventoryRecord) : List InventoryRecord :=
  match db with
  | [] => []
  | r :: rs => if invKeyMatch h bg r then r' :: rs else r :: replaceFirst rs h bg r'

/-- `bloodInventorySchema.statics.upsertInventory`: `findOneAndUpdate` with
`upsert: true`, overwriting `units_available` and stamping `last_updated`;
a document created by the upsert gets the schema default `min_threshold = 2`. -/
def upsertInventory (db : List InventoryRecord) (h : Nat) (bg : String)
    (units : Int) (now : Int) : InventoryRecord × List InventoryRecord :=
  match invFindOne db h bg with
  | some r =>
    let r' := { r with units_available := units, last_updated := now }
    (r', replaceFirst db h bg r')
  | none =>
    let r' : InventoryRecord := ⟨h, bg, units, 2, now⟩
    (r', db ++ [r'])

/-- `bloodInventorySchema.statics.addUnits`: increment an existing document,
or create one holding exactly the added units. -/
def addUnits (db : List InventoryRecord) (h : Nat) (bg : String)
    (n : Int) (now : Int) : InventoryRecord × List InventoryRecord :=
  match invFindOne db h bg with
  | some r =>
    let r' := { r with units_available := r.units_available + n, last_updated := now }
    (r', replaceFirst db h bg r')
  | none =>
    let r' : InventoryRecord := ⟨h, bg, n, 2, now⟩
    (r', db ++ [r'])

/-- `bloodInventorySchema.statics.reduceUnits`: throws `notFound` when no
document matches, throws `insufficientStock` when fewer units are available
than requested (in both cases before any write), otherwise decrements. -/
def reduceUnits (db : List InventoryRecord) (h : Nat) (bg : String)
    (n : Int) (now : Int) :
    Except InvError InventoryRecord × List InventoryRecord :=
  match invFindOne db h bg with
  | none => (.error .notFound, db)
  | some r =>
    if r.units_available < n then
      (.error .insufficientStock, db)
    else
      let r' := { r with units_available := r.units_available - n, last_updated := now }
      (.ok r', replaceFirst db h bg r')

/-- `bloodInventorySchema.methods.isLowStock`. -/
def isLowStock (r : InventoryRecord) : Bool :=
  decide (r.units_available ≤ r.min_threshold)

/-- The eight blood groups, in the order the seeding loop iterates them. -/
def bloodGroups : List String :=
  ["A+", "A-", "B+", "B-", "AB+", "AB-", "O+", "O-"]

/-- Byte-wise (code-unit) string comparison, as MongoDB orders plain ASCII
string fields in an ascending sort. -/
def strLeB : List Char → List Char → Bool
  | [], _ => true
  | _ :: _, [] => false
  | a :: as, b :: bs => if a = b then strLeB as bs else decide (a.toNat < b.toNat)

/-- Propositional form of `strLeB` on strings. -/
def strLe (a b : String) : Prop := strLeB a.data b.data = true

instance : DecidableRel strLe := fun a b => by unfold strLe; infer_instance

/-- Ascending `blood_group` order on inventory documents
(`.sort({ blood_group: 1 })`). -/
def invLe (r s : InventoryRecord) : Prop := strLe r.blood_group s.blood_group

instance : DecidableRel invLe := fun r s => by unfold invLe; infer_instance

/-- `bloodInventorySchema.statics.getHospitalInventory`: all documents of the
hospital, sorted ascending by blood group. -/
def getHospitalInventory (db : List InventoryRecord) (h : Nat) :
    List InventoryRecord :=
  List.insertionSort invLe (db.filter fun r => r.hospital_id == h)

/-- One element of the inventory matrix returned by `GET /inventory`. -/
structure InvView where
  blood_group : String
  units_available : Int
  last_updated : Int
  is_low_stock : Bool
  min_threshold : Int
  deriving DecidableEq, Repr

/-- The response formatting loop of `GET /inventory`. -/
def formatInventory (items : List InventoryRecord) : List InvView :=
  items.map fun r =>
    ⟨r.blood_group, r.units_available, r.last_updated, isLowStock r, r.min_threshold⟩

/-- The default documents created when a hospital has no inventory yet:
one zero-valued record per blood group, with the schema defaults. -/
def seedRecords (h : Nat) (now : Int) : List InventoryRecord :=
  bloodGroups.map fun bg => ⟨h, bg, 0, 2, now⟩

/-- `GET /inventory`: fetch the hospital's inventory; when it is empty,
create the eight default documents and fetch again; format the result. -/
def getInventory (db : List InventoryRecord) (h : Nat) (now : Int) :
    List InvView × List InventoryRecord :=
  let items := getHospitalInventory db h
  if items.isEmpty then
    let db' := db ++ seedRecords h now
    (formatInventory (getHospitalInventory db' h), db')
  else
    (formatInventory items, db)

/-! ## Users, notifications and the reminder routes
(`backend/models/Notification.js`, `backend/routes/hospital.js`) -/

/-- A user document, restricted to the fields the reminder routes read.
`lastDonation` is `profile.lastDonation`, `bloodGroup` is
`profile.bloodGroup` (both optional). -/
structure User where
  id : Nat
  role : String
  name : String
  email : String
  bloodGroup : Option String
  lastDonation : Option JSDate
  deriving DecidableEq, Repr

/-- A document of the `Notification` collection. -/
structure NotificationRecord where
  donor_id : Nat
  hospital_id : Nat
  type : String
  message : String
  delivery_method : String
  status : String
  sent_at : Option Int
  is_read : Bool
  deriving DecidableEq, Repr

/-- `notificationSchema.statics.wasReminderSentRecently`: whether some
`donation_reminder` from this hospital to this donor has
`sent_at ≥ now − daysAgo` days.  (`setDate(getDate() − daysAgo)` subtracts
exactly `daysAgo` whole days from the timestamp.) -/
def wasReminderSentRecently (log : List NotificationRecord)
    (donorId hospitalId : Nat) (daysAgo : Int) (now : Int) : Bool :=
  log.any fun nrec =>
    nrec.donor_id == donorId && nrec.hospital_id == hospitalId &&
    nrec.type == "donation_reminder" &&
    (match nrec.sent_at with
     | some t => decide (now - daysAgo * msPerDay ≤ t)
     | none => false)

/-- The message synthesized by `POST /reminders/send`. -/
def mkBulkMessage (donorName hospitalName bloodGroup : String) : String :=
  "Hello " ++ donorName ++ "! You\x27re eligible to donate blood again. Please visit "
    ++ hospitalName ++ " to save a life. Your blood type " ++ bloodGroup ++ " is needed!"

/-- The message synthesized by `POST /reminders/send-single`. -/
def mkSingleMessage (donorName hospitalName : String) : String :=
  "Hello " ++ donorName ++ "! You\x27re eligible to donate blood again. Please visit "
    ++ hospitalName ++ " to save a life."

/-- One entry of the `results` array of `POST /reminders/send`. -/
structure SendEntry where
  donor_name : String
  email : String
  status : String
  deriving DecidableEq, Repr

/-- The accumulating state of the loop of `POST /reminders/send`. -/
structure SendState where
  sent_count : Nat
  skipped_count : Nat
  results : List SendEntry
  log : List NotificationRecord
  deriving DecidableEq, Repr

/-- One iteration of the loop of `POST /reminders/send`: skip ineligible
donors silently, count recently-reminded donors as skipped, and otherwise
create a `sent` notification and record the result. -/
def sendStep (hospitalId : Nat) (hospitalName : String) (now : Int)
    (st : SendState) (donor : User) : SendState :=
  if isDonorEligible donor.lastDonation now then
    if wasReminderSentRecently st.log donor.id hospitalId 30 now then
      { st with skipped_count := st.skipped_count + 1 }
    else
      let msg := mkBulkMessage donor.name hospitalName (donor.bloodGroup.getD "")
      { st with
        sent_count := st.sent_count + 1
        results := st.results ++ [⟨donor.name, donor.email, "sent"⟩]
        log := st.log ++
          [⟨donor.id, hospitalId, "donation_reminder", msg, "console", "sent",
            some now, false⟩] }
  else st

/-- `POST /reminders/send`: iterate over all donor-role users. -/
def sendAllReminders (users : List User) (log : List NotificationRecord)
    (hospitalId : Nat) (hospitalName : String) (now : Int) : SendState :=
  (users.filter fun u => u.role == "donor").foldl
    (sendStep hospitalId hospitalName now) ⟨0, 0, [], log⟩

/-- Error thrown by the single-reminder route. -/
inductive ReminderError where
  | notFound
  deriving DecidableEq, Repr

/-- `POST /reminders/send-single`: look the donor up by
`{ _id: donor_id, role: 'donor' }`; 404 when absent, otherwise create a
notification unconditionally (no cooldown check) and reply with the donor
name and email. -/
def sendSingleReminder (users : List User) (log : List NotificationRecord)
    (hospitalId : Nat) (hospitalName : String) (donorId : Nat) (now : Int) :
    Except ReminderError (String × String) × List NotificationRecord :=
  match users.find? (fun u => u.id == donorId && u.role == "donor") with
  | none => (.error .notFound, log)
  | some d =>
    let msg := mkSingleMessage d.name hospitalName
    (.ok (d.name, d.email),
      log ++ [⟨d.id, hospitalId, "donation_reminder", msg, "console", "sent",
        some now, false⟩])

/-- Number of `donation_reminder` documents for a (donor, hospital) pair. -/
def countReminders (log : List NotificationRecord) (donorId hospitalId : Nat) : Nat :=
  (log.filter fun nrec =>
    nrec.donor_id == donorId && nrec.hospital_id == hospitalId &&
    nrec.type == "donation_reminder").length

/-! ## Hospital location search (`backend/models/Hospital.js`,
`hospitalSchema.statics.searchByLocation`) -/

/-- A document of the `Hospital` collection, restricted to the fields the
location search reads. -/
structure Hospital where
  name : String
  city : String
  address : String
  state : String
  isActive : Bool
  deriving DecidableEq, Repr

/-- ASCII `toLowerCase` on one character (the search data is ASCII). -/
def toLowerChar (c : Char) : Char :=
  if c.toNat ≥ 65 ∧ c.toNat ≤ 90 then Char.ofNat (c.toNat + 32) else c

/-- `String.prototype.toLowerCase`. -/
def lowerStr (s : String) : String := ⟨s.data.map toLowerChar⟩

/-- `String.prototype.trim` on a character list. -/
def trimChars (l : List Char) : List Char :=
  ((l.dropWhile Char.isWhitespace).reverse.dropWhile Char.isWhitespace).reverse

/-- `String.prototype.trim`. -/
def trimStr (s : String) : String := ⟨trimChars s.data⟩

/-- Whether `pat` occurs at the start of `s`. -/
def startsWithChars : List Char → List Char → Bool
  | [], _ => true
  | _ :: _, [] => false
  | a :: as, b :: bs => a == b && startsWithChars as bs

/-- Whether `pat` occurs contiguously anywhere in `s`. -/
def containsSub (pat : List Char) : List Char → Bool
  | [] => pat.isEmpty
  | b :: bs => startsWithChars pat (b :: bs) || containsSub pat bs

/-- `new RegExp(pat, 'i').test(field)` for a pattern without regex
metacharacters: case-insensitive substring containment. -/
def regexTestCI (pat field : String) : Bool :=
  containsSub (lowerStr pat).data (lowerStr field).data

/-- Ascending `name` order on hospitals (`.sort({ name: 1 })`). -/
def hospLe (a b : Hospital) : Prop := strLe a.name b.name

instance : DecidableRel hospLe := fun a b => by unfold hospLe; infer_instance

/-- `hospitalSchema.statics.searchByLocation`: lowercase and trim the term,
try an exact active-city match sorted by name; only when that returns no
documents, fall back to a case-insensitive substring match over city,
address and state (OR), again restricted to active hospitals and sorted by
name. -/
def searchByLocation (hospitals : List Hospital) (searchTerm : String) :
    List Hospital :=
  let normalizedTerm := trimStr (lowerStr searchTerm)
  let exact := List.insertionSort hospLe
    (hospitals.filter fun h => h.city == normalizedTerm && h.isActive)
  if exact.isEmpty then
    List.insertionSort hospLe
      (hospitals.filter fun h =>
        (regexTestCI normalizedTerm h.city || regexTestCI normalizedTerm h.address
          || regexTestCI normalizedTerm h.state) && h.isActive)
  else
    exact

/-! ## Auxiliary definitions used to state the properties -/

/-- The database state after one `reduce_units` call (an error keeps the
state: the exception is thrown before any write). -/
def applyReduce (db : List InventoryRecord) (c : Nat × String × Int × Int) :
    List InventoryRecord :=
  (reduceUnits db c.1 c.2.1 c.2.2.1 c.2.2.2).2

/-- All records other than the `(h, bg)` ones, in collection order. -/
def othersOf (db : List InventoryRecord) (h : Nat) (bg : String) :
    List InventoryRecord :=
  db.filter fun x => !(invKeyMatch h bg x)

/-- `r'` is the same ledger row as `r`: identity and threshold unchanged
(only `units_available` and `last_updated` may differ). -/
def sameTarget (r r' : InventoryRecord) : Prop :=
  r'.hospital_id = r.hospital_id ∧ r'.blood_group = r.blood_group ∧
    r'.min_threshold = r.min_threshold

/-- The notification document `POST /reminders/send` creates for an eligible,
not-recently-reminded donor. -/
def mkReminder (d : User) (hospitalId : Nat) (hospitalName : String)
    (now : Int) : NotificationRecord :=
  ⟨d.id, hospitalId, "donation_reminder",
    mkBulkMessage d.name hospitalName (d.bloodGroup.getD ""),
    "console", "sent", some now, false⟩

/-- The `donation_reminder` documents of a (donor, hospital) pair, in
collection order. -/
def remindersFor (log : List NotificationRecord) (donorId hospitalId : Nat) :
    List NotificationRecord :=
  log.filter fun nrec =>
    nrec.donor_id == donorId && nrec.hospital_id == hospitalId &&
      nrec.type == "donation_reminder"

/-- The sent-at recency test `wasReminderSentRecently` applies to one
document. -/
def sentWithin (daysAgo now : Int) (nrec : NotificationRecord) : Bool :=
  match nrec.sent_at with
  | some t => decide (now - daysAgo * msPerDay ≤ t)
  | none => false

/-- The spec's normalization of a search term: trim, then lowercase. -/
def specNormalize (term : String) : String := lowerStr (trimStr term)

/-- The inventory matrix `GET /inventory` answers to a hospital that has
never touched its inventory: all eight groups, zero units, low stock, the
default threshold, sorted by blood-group label. -/
def freshInventoryViews (now : Int) : List InvView :=
  [⟨"A+", 0, now, true, 2⟩, ⟨"A-", 0, now, true, 2⟩,
   ⟨"AB+", 0, now, true, 2⟩, ⟨"AB-", 0, now, true, 2⟩,
   ⟨"B+", 0, now, true, 2⟩, ⟨"B-", 0, now, true, 2⟩,
   ⟨"O+", 0, now, true, 2⟩, ⟨"O-", 0, now, true, 2⟩]

/-! ## Donor-eligibility lemmas -/

/-- A donor is classified eligible exactly when the current time has reached
the date `getEligibleDate` computes. -/
theorem isDonorEligible_iff_getEligible (lastDonation : Option JSDate) (now : Int) :
    isDonorEligible lastDonation now = true ↔ getEligibleMillis lastDonation now ≤ now := by
  cases lastDonation with
  | none => simp [isDonorEligible, getEligibleMillis]
  | some ld => simp [isDonorEligible, getEligibleMillis, ge_iff_le]

/-- Eligibility is monotone in the current time. -/
theorem isDonorEligible_mono (lastDonation : Option JSDate) {t₁ t₂ : Int}
    (h₁₂ : t₁ ≤ t₂) (h : isDonorEligible lastDonation t₁ = true) :
    isDonorEligible lastDonation t₂ = true := by
  cases lastDonation with
  | none => rfl
  | some ld =>
    simp only [isDonorEligible, ge_iff_le, decide_eq_true_eq] at h ⊢
    exact le_trans h h₁₂

/-! ## Basic lemmas about the inventory collection -/

theorem invKeyMatch_iff (h : Nat) (bg : String) (r : InventoryRecord) :
    invKeyMatch h bg r = true ↔ r.hospital_id = h ∧ r.blood_group = bg := by
  simp [invKeyMatch]

theorem invFindOne_mem {db : List InventoryRecord} {h : Nat} {bg : String}
    {r : InventoryRecord} (hf : invFindOne db h bg = some r) : r ∈ db :=
  List.mem_of_find?_eq_some hf

theorem invFindOne_key {db : List InventoryRecord} {h : Nat} {bg : String}
    {r : InventoryRecord} (hf : invFindOne db h bg = some r) :
    r.hospital_id = h ∧ r.blood_group = bg :=
  (invKeyMatch_iff h bg r).1 (List.find?_some hf)

theorem invFindOne_replaceFirst_same {db : List InventoryRecord} {h : Nat}
    {bg : String} {r r' : InventoryRecord} (hf : invFindOne db h bg = some r)
    (hk : invKeyMatch h bg r' = true) :
    invFindOne (replaceFirst db h bg r') h bg = some r' := by
  induction db with
  | nil => simp [invFindOne] at hf
  | cons x xs ih =>
    by_cases hx : invKeyMatch h bg x
    · simp [replaceFirst, hx, invFindOne, List.find?_cons, hk]
    · have hx' : invKeyMatch h bg x = false := by simpa using hx
      simp only [invFindOne, List.find?_cons, hx'] at hf
      show invFindOne (if invKeyMatch h bg x = true then r' :: xs
        else x :: replaceFirst xs h bg r') h bg = some r'
      rw [if_neg hx]
      simp only [invFindOne, List.find?_cons, hx']
      exact ih hf

theorem invKeyMatch_false_of_ne {h h2 : Nat} {bg bg2 : String}
    {x : InventoryRecord} (hx : invKeyMatch h bg x = true)
    (hne : ¬(h2 = h ∧ bg2 = bg)) : invKeyMatch h2 bg2 x = false := by
  rcases (invKeyMatch_iff h bg x).1 hx with ⟨e1, e2⟩
  rw [Bool.eq_false_iff]
  intro hc
  rcases (invKeyMatch_iff h2 bg2 x).1 hc with ⟨f1, f2⟩
  exact hne ⟨by rw [← f1, e1], by rw [← f2, e2]⟩

theorem invFindOne_replaceFirst_other {db : List InventoryRecord} {h : Nat}
    {bg : String} {r' : InventoryRecord} (hk : invKeyMatch h bg r' = true)
    {h2 : Nat} {bg2 : String} (hne : ¬(h2 = h ∧ bg2 = bg)) :
    invFindOne (replaceFirst db h bg r') h2 bg2 = invFindOne db h2 bg2 := by
  induction db with
  | nil => simp [replaceFirst]
  | cons x xs ih =>
    by_cases hx : invKeyMatch h bg x
    · have hx2 : invKeyMatch h2 bg2 x = false := invKeyMatch_false_of_ne hx hne
      have hr2 : invKeyMatch h2 bg2 r' = false := invKeyMatch_false_of_ne hk hne
      simp [replaceFirst, hx, invFindOne, List.find?_cons, hr2, hx2]
    · by_cases hx2 : invKeyMatch h2 bg2 x
      · simp [replaceFirst, hx, invFindOne, List.find?_cons, hx2]
      · have hx2' : invKeyMatch h2 bg2 x = false := by simpa using hx2
        simpa [replaceFirst, if_neg hx, invFindOne, List.find?_cons, hx2'] using ih

theorem replaceFirst_filter_other {db : List InventoryRecord} {h : Nat}
    {bg : String} {r' : InventoryRecord} (hk : invKeyMatch h bg r' = true) :
    (replaceFirst db h bg r').filter (fun x => !(invKeyMatch h bg x)) =
      db.filter (fun x => !(invKeyMatch h bg x)) := by
  induction db with
  | nil => simp [replaceFirst]
  | cons x xs ih =>
    by_cases hx : invKeyMatch h bg x
    · simp [replaceFirst, hx, List.filter_cons, hk]
    · simp [replaceFirst, hx, List.filter_cons, ih]

theorem replaceFirst_length (db : List InventoryRecord) (h : Nat) (bg : String)
    (r' : InventoryRecord) : (replaceFirst db h bg r').length = db.length := by
  induction db with
  | nil => rfl
  | cons x xs ih =>
    by_cases hx : invKeyMatch h bg x <;> simp [replaceFirst, hx, ih]

theorem mem_replaceFirst {db : List InventoryRecord} {h : Nat} {bg : String}
    {r' x : InventoryRecord} (hx : x ∈ replaceFirst db h bg r') :
    x = r' ∨ x ∈ db := by
  induction db with
  | nil => simp [replaceFirst] at hx
  | cons y ys ih =>
    by_cases hy : invKeyMatch h bg y
    · simp only [replaceFirst, if_pos hy, List.mem_cons] at hx
      rcases hx with hx | hx
      · exact Or.inl hx
      · exact Or.inr (List.mem_cons_of_mem _ hx)
    · simp only [replaceFirst, if_neg hy, List.mem_cons] at hx
      rcases hx with hx | hx
      · exact Or.inr (by simp [hx])
      · rcases ih hx with hx' | hx'
        · exact Or.inl hx'
        · exact Or.inr (List.mem_cons_of_mem _ hx')

theorem invFindOne_append_of_none {db l : List InventoryRecord} {h : Nat}
    {bg : String} (hf : invFindOne db h bg = none) :
    invFindOne (db ++ l) h bg = invFindOne l h bg := by
  have hf' : List.find? (invKeyMatch h bg) db = none := hf
  simp [invFindOne, List.find?_append, hf']

/-! ## Behaviour of the three mutating inventory operations -/

theorem upsertInventory_units (db : List InventoryRecord) (h : Nat) (bg : String)
    (v now : Int) : (upsertInventory db h bg v now).1.units_available = v := by
  cases hf : invFindOne db h bg <;> simp [upsertInventory, hf]

theorem upsertInventory_key (db : List InventoryRecord) (h : Nat) (bg : String)
    (v now : Int) : invKeyMatch h bg (upsertInventory db h bg v now).1 = true := by
  cases hf : invFindOne db h bg with
  | none => simp [upsertInventory, hf, invKeyMatch]
  | some r =>
    have hkey := invFindOne_key hf
    simp [upsertInventory, hf, invKeyMatch, hkey.1, hkey.2]

theorem upsertInventory_findOne (db : List InventoryRecord) (h : Nat) (bg : String)
    (v now : Int) :
    invFindOne (upsertInventory db h bg v now).2 h bg =
      some (upsertInventory db h bg v now).1 := by
  have hk := upsertInventory_key db h bg v now
  cases hf : invFindOne db h bg with
  | none =>
    simp only [upsertInventory, hf] at hk ⊢
    rw [invFindOne_append_of_none hf]
    simp [invFindOne, List.find?_cons, hk]
  | some r =>
    simp only [upsertInventory, hf] at hk ⊢
    exact invFindOne_replaceFirst_same hf hk

theorem addUnits_units (db : List InventoryRecord) (h : Nat) (bg : String)
    (n now : Int) :
    (addUnits db h bg n now).1.units_available =
      ((invFindOne db h bg).map (·.units_available)).getD 0 + n := by
  cases hf : invFindOne db h bg <;> simp [addUnits, hf]

theorem addUnits_key (db : List InventoryRecord) (h : Nat) (bg : String)
    (n now : Int) : invKeyMatch h bg (addUnits db h bg n now).1 = true := by
  cases hf : invFindOne db h bg with
  | none => simp [addUnits, hf, invKeyMatch]
  | some r =>
    have hkey := invFindOne_key hf
    simp [addUnits, hf, invKeyMatch, hkey.1, hkey.2]

theorem addUnits_findOne (db : List InventoryRecord) (h : Nat) (bg : String)
    (n now : Int) :
    invFindOne (addUnits db h bg n now).2 h bg = some (addUnits db h bg n now).1 := by
  have hk := addUnits_key db h bg n now
  cases hf : invFindOne db h bg with
  | none =>
    simp only [addUnits, hf] at hk ⊢
    rw [invFindOne_append_of_none hf]
    simp [invFindOne, List.find?_cons, hk]
  | some r =>
    simp only [addUnits, hf] at hk ⊢
    exact invFindOne_replaceFirst_same hf hk

/-! ## C8 -/

/-- C8: `is_low_stock` is a pure predicate that is true if and only if
`units_available ≤ min_threshold`; in particular it is true at the boundary
`units_available = min_threshold` and (with the non-negative thresholds the
schema ever produces) at `units_available = 0`. -/
theorem isLowStock_spec (r : InventoryRecord) :
    (isLowStock r = true ↔ r.units_available ≤ r.min_threshold)
    ∧ (r.units_available = r.min_threshold → isLowStock r = true)
    ∧ (r.units_available = 0 → 0 ≤ r.min_threshold → isLowStock r = true) := by
  refine ⟨by simp [isLowStock], fun hEq => ?_, fun h0 ht => ?_⟩
  · simp [isLowStock, hEq]
  · simp [isLowStock, h0, ht]

/-- Witness for C8 at a boundary record and at a zero record. -/
theorem isLowStock_spec_witness :
    isLowStock ⟨1, "A+", 2, 2, 0⟩ = true ∧ isLowStock ⟨1, "A+", 0, 2, 0⟩ = true :=
  ⟨(isLowStock_spec ⟨1, "A+", 2, 2, 0⟩).2.1 rfl,
   (isLowStock_spec ⟨1, "A+", 0, 2, 0⟩).2.2 rfl (by decide)⟩

/-! ## C7 -/

/-- C7: `set_units` is an idempotent full replace: a single call overwrites
`units_available` with `v` unconditionally (whatever was stored before), and
a second call with the same `v` still yields `units_available = v`, not
`2·v`. -/
theorem upsert_idempotent (db : List InventoryRecord) (h : Nat) (bg : String)
    (v now₁ now₂ : Int) :
    (upsertInventory db h bg v now₁).1.units_available = v
    ∧ ((invFindOne (upsertInventory db h bg v now₁).2 h bg).map
        (·.units_available)) = some v
    ∧ ((invFindOne (upsertInventory (upsertInventory db h bg v now₁).2 h bg v now₂).2
        h bg).map (·.units_available)) = some v := by
  refine ⟨upsertInventory_units db h bg v now₁, ?_, ?_⟩
  · rw [upsertInventory_findOne db h bg v now₁]
    simp [upsertInventory_units]
  · rw [upsertInventory_findOne (upsertInventory db h bg v now₁).2 h bg v now₂]
    simp [upsertInventory_units]

/-! ## C2 -/

theorem reduceUnits_nonneg {db : List InventoryRecord}
    (hdb : ∀ r ∈ db, 0 ≤ r.units_available) (h : Nat) (bg : String) (n now : Int) :
    ∀ r' ∈ (reduceUnits db h bg n now).2, 0 ≤ r'.units_available := by
  intro r' hr'
  cases hf : invFindOne db h bg with
  | none =>
    simp only [reduceUnits, hf] at hr'
    exact hdb r' hr'
  | some r =>
    by_cases hlt : r.units_available < n
    · simp only [reduceUnits, hf, if_pos hlt] at hr'
      exact hdb r' hr'
    · simp only [reduceUnits, hf, if_neg hlt] at hr'
      rcases mem_replaceFirst hr' with hx | hx
      · rw [hx]
        exact sub_nonneg.2 (not_lt.1 hlt)
      · exact hdb r' hx

/-- C2: reducing more units than available fails with `InsufficientStock`
and leaves the whole collection (in particular the record) untouched, and
consequently any sequence of `reduce_units` calls preserves
`units_available ≥ 0` on every record. -/
theorem reduce_insufficient_and_nonneg :
    (∀ (db : List InventoryRecord) (h : Nat) (bg : String) (n now : Int)
      (r : InventoryRecord), invFindOne db h bg = some r →
      r.units_available < n →
      reduceUnits db h bg n now = (.error .insufficientStock, db))
    ∧ (∀ (cmds : List (Nat × String × Int × Int)) (db : List InventoryRecord),
      (∀ r ∈ db, 0 ≤ r.units_available) →
      ∀ r' ∈ cmds.foldl applyReduce db, 0 ≤ r'.units_available) := by
  constructor
  · intro db h bg n now r hf hlt
    simp [reduceUnits, hf, hlt]
  · intro cmds
    induction cmds with
    | nil => intro db hdb; simpa using hdb
    | cons c cs ih =>
      intro db hdb
      simp only [List.foldl_cons]
      exact ih _ (reduceUnits_nonneg hdb c.1 c.2.1 c.2.2.1 c.2.2.2)

/-- Witness for C2: reducing 4 from a 3-unit record fails with
`InsufficientStock` and changes nothing; a sequence of reduce calls keeps a
non-negative ledger. -/
theorem reduce_insufficient_and_nonneg_witness :
    reduceUnits [⟨7, "A+", 3, 2, 0⟩] 7 "A+" 4 9 =
      (.error .insufficientStock, [⟨7, "A+", 3, 2, 0⟩])
    ∧ ∀ r' ∈ [(7, "A+", (2 : Int), (5 : Int)), (7, "A+", 4, 6)].foldl applyReduce
        [⟨7, "A+", 3, 2, 0⟩], 0 ≤ r'.units_available :=
  ⟨reduce_insufficient_and_nonneg.1 [⟨7, "A+", 3, 2, 0⟩] 7 "A+" 4 9 ⟨7, "A+", 3, 2, 0⟩
      (by decide) (by decide),
   reduce_insufficient_and_nonneg.2 [(7, "A+", (2 : Int), (5 : Int)), (7, "A+", 4, 6)]
      [⟨7, "A+", 3, 2, 0⟩] (by decide)⟩

/-! ## C6 -/

/-- C6: for positive `n`, `add_units` followed by `reduce_units` with the
same `n` succeeds and returns `units_available` for `(h, bg)` to its value
before the add (`0` when no record existed before the add), assuming the
pre-state value is non-negative, as the ledger invariant guarantees. -/
theorem add_then_reduce_roundtrip (db : List InventoryRecord) (h : Nat)
    (bg : String) (n now₁ now₂ : Int) (_hn : 0 < n)
    (h0 : 0 ≤ ((invFindOne db h bg).map (·.units_available)).getD 0) :
    ∃ r₂, (reduceUnits (addUnits db h bg n now₁).2 h bg n now₂).1 = .ok r₂
      ∧ r₂.units_available = ((invFindOne db h bg).map (·.units_available)).getD 0
      ∧ (invFindOne (reduceUnits (addUnits db h bg n now₁).2 h bg n now₂).2 h bg).map
          (·.units_available) =
        some (((invFindOne db h bg).map (·.units_available)).getD 0) := by
  set u0 := ((invFindOne db h bg).map (·.units_available)).getD 0 with hu0
  have hfind := addUnits_findOne db h bg n now₁
  have hunits : (addUnits db h bg n now₁).1.units_available = u0 + n :=
    addUnits_units db h bg n now₁
  have hnotlt : ¬ (addUnits db h bg n now₁).1.units_available < n := by
    rw [hunits]; omega
  set r₁ := (addUnits db h bg n now₁).1 with hr₁
  refine ⟨{ r₁ with units_available := r₁.units_available - n, last_updated := now₂ },
    ?_, ?_, ?_⟩
  · simp only [reduceUnits, hfind, if_neg hnotlt]
  · simp only [hunits]; omega
  · have hk : invKeyMatch h bg
        ({ r₁ with units_available := r₁.units_available - n, last_updated := now₂ }) =
        true := by
      have := addUnits_key db h bg n now₁
      simp only [invKeyMatch] at this ⊢
      exact this
    simp only [reduceUnits, hfind, if_neg hnotlt]
    rw [invFindOne_replaceFirst_same hfind hk]
    have hx : r₁.units_available - n = u0 := by rw [hunits]; ring
    simp only [Option.map]
    exact congrArg some hx

/-- Witness for C6: adding then reducing 3 units of a fresh blood group
leaves it at 0; with a pre-existing 5-unit record it returns to 5. -/
theorem add_then_reduce_roundtrip_witness :
    (∃ r₂, (reduceUnits (addUnits [] 7 "A+" 3 1).2 7 "A+" 3 2).1 = .ok r₂
      ∧ r₂.units_available = 0
      ∧ (invFindOne (reduceUnits (addUnits [] 7 "A+" 3 1).2 7 "A+" 3 2).2 7 "A+").map
          (·.units_available) = some 0)
    ∧ (∃ r₂, (reduceUnits (addUnits [⟨7, "A+", 5, 2, 0⟩] 7 "A+" 3 1).2 7 "A+" 3 2).1 =
          .ok r₂
      ∧ r₂.units_available = 5
      ∧ (invFindOne (reduceUnits (addUnits [⟨7, "A+", 5, 2, 0⟩] 7 "A+" 3 1).2
          7 "A+" 3 2).2 7 "A+").map (·.units_available) = some 5) :=
  ⟨add_then_reduce_roundtrip [] 7 "A+" 3 1 2 (by decide) (by decide),
   add_then_reduce_roundtrip [⟨7, "A+", 5, 2, 0⟩] 7 "A+" 3 1 2 (by decide) (by decide)⟩

/-! ## C10 -/

theorem frame_of_replaceFirst {db : List InventoryRecord} {h : Nat} {bg : String}
    {r r' : InventoryRecord} (hf : invFindOne db h bg = some r)
    (hk : invKeyMatch h bg r' = true) :
    othersOf (replaceFirst db h bg r') h bg = othersOf db h bg
    ∧ (replaceFirst db h bg r').length = db.length
    ∧ invFindOne (replaceFirst db h bg r') h bg = some r'
    ∧ ∀ (h2 : Nat) (bg2 : String), ¬(h2 = h ∧ bg2 = bg) →
        invFindOne (replaceFirst db h bg r') h2 bg2 = invFindOne db h2 bg2 :=
  ⟨replaceFirst_filter_other hk, replaceFirst_length db h bg r',
   invFindOne_replaceFirst_same hf hk,
   fun _ _ hne => invFindOne_replaceFirst_other hk hne⟩

/-- C10: each of `set_units`, `add_units` and `reduce_units` applied to an
existing `(h, bg)` record touches only that record — the collection keeps
its size, every record with a different key is untouched (same documents in
the same order, and lookups under any other key are unchanged), and the
target record keeps its `hospital_id`, `blood_group` and `min_threshold`. -/
theorem mutators_frame (db : List InventoryRecord) (h : Nat) (bg : String)
    (v n m now : Int) (r : InventoryRecord) (hf : invFindOne db h bg = some r) :
    (othersOf (upsertInventory db h bg v now).2 h bg = othersOf db h bg
      ∧ (upsertInventory db h bg v now).2.length = db.length
      ∧ (∃ r', invFindOne (upsertInventory db h bg v now).2 h bg = some r'
          ∧ sameTarget r r')
      ∧ ∀ (h2 : Nat) (bg2 : String), ¬(h2 = h ∧ bg2 = bg) →
          invFindOne (upsertInventory db h bg v now).2 h2 bg2 = invFindOne db h2 bg2)
    ∧ (othersOf (addUnits db h bg n now).2 h bg = othersOf db h bg
      ∧ (addUnits db h bg n now).2.length = db.length
      ∧ (∃ r', invFindOne (addUnits db h bg n now).2 h bg = some r'
          ∧ sameTarget r r')
      ∧ ∀ (h2 : Nat) (bg2 : String), ¬(h2 = h ∧ bg2 = bg) →
          invFindOne (addUnits db h bg n now).2 h2 bg2 = invFindOne db h2 bg2)
    ∧ (othersOf (reduceUnits db h bg m now).2 h bg = othersOf db h bg
      ∧ (reduceUnits db h bg m now).2.length = db.length
      ∧ (∃ r', invFindOne (reduceUnits db h bg m now).2 h bg = some r'
          ∧ sameTarget r r')
      ∧ ∀ (h2 : Nat) (bg2 : String), ¬(h2 = h ∧ bg2 = bg) →
          invFindOne (reduceUnits db h bg m now).2 h2 bg2 = invFindOne db h2 bg2) := by
  have hkey := invFindOne_key hf
  refine ⟨?_, ?_, ?_⟩
  · have hk : invKeyMatch h bg
        ({ r with units_available := v, last_updated := now }) = true := by
      simp [invKeyMatch, hkey.1, hkey.2]
    have hfr := frame_of_replaceFirst hf hk
    simp only [upsertInventory, hf]
    exact ⟨hfr.1, hfr.2.1, ⟨_, hfr.2.2.1, rfl, rfl, rfl⟩, hfr.2.2.2⟩
  · have hk : invKeyMatch h bg
        ({ r with units_available := r.units_available + n, last_updated := now }) =
        true := by
      simp [invKeyMatch, hkey.1, hkey.2]
    have hfr := frame_of_replaceFirst hf hk
    simp only [addUnits, hf]
    exact ⟨hfr.1, hfr.2.1, ⟨_, hfr.2.2.1, rfl, rfl, rfl⟩, hfr.2.2.2⟩
  · by_cases hlt : r.units_available < m
    · have hdb : (reduceUnits db h bg m now).2 = db := by
        simp [reduceUnits, hf, hlt]
      rw [hdb]
      exact ⟨rfl, rfl, ⟨r, hf, rfl, rfl, rfl⟩, fun _ _ _ => rfl⟩
    · have hk : invKeyMatch h bg
        ({ r with units_available := r.units_available - m, last_updated := now }) =
          true := by
        simp [invKeyMatch, hkey.1, hkey.2]
      have hfr := frame_of_replaceFirst hf hk
      simp only [reduceUnits, hf, if_neg hlt]
      exact ⟨hfr.1, hfr.2.1, ⟨_, hfr.2.2.1, rfl, rfl, rfl⟩, hfr.2.2.2⟩

/-- Witness for C10 on a two-hospital, two-group ledger. -/
theorem mutators_frame_witness :
    othersOf (upsertInventory [⟨7, "A+", 3, 2, 0⟩, ⟨7, "B+", 4, 2, 0⟩, ⟨8, "A+", 6, 2, 0⟩]
        7 "A+" 9 5).2 7 "A+" =
      othersOf [⟨7, "A+", 3, 2, 0⟩, ⟨7, "B+", 4, 2, 0⟩, ⟨8, "A+", 6, 2, 0⟩] 7 "A+"
    ∧ invFindOne (reduceUnits [⟨7, "A+", 3, 2, 0⟩, ⟨7, "B+", 4, 2, 0⟩, ⟨8, "A+", 6, 2, 0⟩]
        7 "A+" 2 5).2 8 "A+" =
      invFindOne [⟨7, "A+", 3, 2, 0⟩, ⟨7, "B+", 4, 2, 0⟩, ⟨8, "A+", 6, 2, 0⟩] 8 "A+" := by
  have hfr := mutators_frame [⟨7, "A+", 3, 2, 0⟩, ⟨7, "B+", 4, 2, 0⟩, ⟨8, "A+", 6, 2, 0⟩]
    7 "A+" 9 1 2 5 ⟨7, "A+", 3, 2, 0⟩ (by decide)
  exact ⟨hfr.1.1, hfr.2.2.2.2.2 8 "A+" (by decide)⟩

/-! ## C4 -/

theorem seedRecords_filter (h : Nat) (now : Int) :
    (seedRecords h now).filter (fun r => r.hospital_id == h) = seedRecords h now := by
  simp [seedRecords, bloodGroups]

theorem getHospitalInventory_seeded (db : List InventoryRecord) (h : Nat) (now : Int)
    (hemp : db.filter (fun r => r.hospital_id == h) = []) :
    getHospitalInventory (db ++ seedRecords h now) h =
      List.insertionSort invLe (seedRecords h now) := by
  unfold getHospitalInventory
  rw [List.filter_append, hemp, List.nil_append, seedRecords_filter]

theorem formatInventory_sorted_seeds (h : Nat) (now : Int) :
    formatInventory (List.insertionSort invLe (seedRecords h now)) =
      freshInventoryViews now := by
  rfl

/-- C4 (amended): a hospital with no inventory records receives from
`get_inventory` exactly the eight fresh records (one per blood group, zero
units, flagged low-stock, default threshold 2) sorted by blood-group label,
and the collection gains exactly those eight seeds; a hospital that already
has at least one record receives only its existing records sorted by label,
with no seeding. -/
theorem getInventory_spec (db : List InventoryRecord) (h : Nat) (now : Int) :
    (db.filter (fun r => r.hospital_id == h) = [] →
      getInventory db h now = (freshInventoryViews now, db ++ seedRecords h now))
    ∧ (db.filter (fun r => r.hospital_id == h) ≠ [] →
      getInventory db h now = (formatInventory (getHospitalInventory db h), db)) := by
  constructor
  · intro hemp
    have h1 : getHospitalInventory db h = [] := by
      simp [getHospitalInventory, hemp]
    unfold getInventory
    rw [h1]
    simp only [List.isEmpty_nil, if_true]
    rw [getHospitalInventory_seeded db h now hemp, formatInventory_sorted_seeds]
  · intro hne
    have h1 : (getHospitalInventory db h).isEmpty = false := by
      rw [Bool.eq_false_iff]
      intro habs
      have hnil : getHospitalInventory db h = [] := by
        simpa [List.isEmpty_iff] using habs
      have hperm := List.perm_insertionSort invLe
        (db.filter fun r => r.hospital_id == h)
      rw [getHospitalInventory] at hnil
      rw [hnil] at hperm
      exact hne (List.Perm.nil_eq hperm).symm
    simp [getInventory, h1]

/-- C4 counterexample: a hospital holding a single `A+` record gets exactly
that one record back from `get_inventory`, not one per blood group — the
universal "always 8 records, one per group" part of the claim is false. -/
theorem getInventory_not_always_full :
    ((getInventory [⟨7, "A+", 5, 2, 0⟩] 7 0).1).length = 1
    ∧ ((getInventory [⟨7, "A+", 5, 2, 0⟩] 7 0).1).length ≠ 8 := by
  decide

/-- Witness for C4: a hospital with no records gets the eight seeded views;
a hospital with one record keeps just it. -/
theorem getInventory_spec_witness :
    getInventory [] 7 5 = (freshInventoryViews 5, [] ++ seedRecords 7 5)
    ∧ getInventory [⟨7, "A+", 5, 2, 0⟩] 7 0 =
      (formatInventory (getHospitalInventory [⟨7, "A+", 5, 2, 0⟩] 7),
        [⟨7, "A+", 5, 2, 0⟩]) :=
  ⟨(getInventory_spec [] 7 5).1 (by decide),
   (getInventory_spec [⟨7, "A+", 5, 2, 0⟩] 7 0).2 (by decide)⟩

/-! ## C1 -/

/-- C1 counterexample: a donor whose last donation is 2024-01-31 is still
classified ineligible through the whole of 2024-04-30 (both at midnight and
at the last millisecond of the day), contrary to the claim that the
classifier returns eligible once the current time is 2024-04-30.
JavaScript `setMonth` rolls the non-existent April 31 over to May 1. -/
theorem eligibility_apr30_still_ineligible :
    isDonorEligible (some ⟨2024, 0, 31, 0⟩) (JSDate.toMillis ⟨2024, 3, 30, 0⟩) = false
    ∧ isDonorEligible (some ⟨2024, 0, 31, 0⟩)
        (JSDate.toMillis ⟨2024, 3, 30, 86399999⟩) = false := by
  decide

/-- C1 (amended): a donor with no recorded donation is eligible immediately;
a donor with a last donation date becomes eligible exactly when the current
time reaches the last donation date with its month incremented by 3 (with
year carry), where a day-of-month that overflows the target month rolls into
the following month (ECMAScript `setMonth`).  In particular a donation on
2024-01-31 makes the donor eligible from 2024-05-01, so the classifier is
ineligible at 2024-04-29 and still at 2024-04-30, and eligible at
2024-05-01; `getEligibleDate` returns exactly the threshold the classifier
compares against. -/
theorem eligibility_spec :
    (∀ now : Int, isDonorEligible none now = true)
    ∧ (∀ (ld : JSDate) (now : Int),
        isDonorEligible (some ld) now = true ↔ addThreeMonthsMillis ld ≤ now)
    ∧ (∀ (lastDonation : Option JSDate) (now : Int),
        isDonorEligible lastDonation now = true ↔
          getEligibleMillis lastDonation now ≤ now)
    ∧ addThreeMonthsMillis ⟨2024, 0, 31, 0⟩ = JSDate.toMillis ⟨2024, 4, 1, 0⟩
    ∧ isDonorEligible (some ⟨2024, 0, 31, 0⟩) (JSDate.toMillis ⟨2024, 3, 29, 0⟩) = false
    ∧ isDonorEligible (some ⟨2024, 0, 31, 0⟩) (JSDate.toMillis ⟨2024, 3, 30, 0⟩) = false
    ∧ isDonorEligible (some ⟨2024, 0, 31, 0⟩) (JSDate.toMillis ⟨2024, 4, 1, 0⟩) = true := by
  refine ⟨fun _ => rfl, fun ld now => ?_, isDonorEligible_iff_getEligible,
    by decide, by decide, by decide, by decide⟩
  simp [isDonorEligible, ge_iff_le]

/-! ## C5 -/

/-- C5: `send_single_reminder` fails with `NotFound` exactly when `donor_id`
does not resolve to a donor-role user; when it does, each call appends one
new notification with no cooldown check, so two calls in immediate
succession both succeed and leave two `donation_reminder` records for the
(donor, hospital) pair. -/
theorem sendSingle_spec (users : List User) (log : List NotificationRecord)
    (h : Nat) (hName : String) (did : Nat) (now₁ now₂ : Int) :
    ((sendSingleReminder users log h hName did now₁).1 = .error .notFound ↔
      ∀ u ∈ users, ¬(u.id = did ∧ u.role = "donor"))
    ∧ (∀ d, users.find? (fun u => u.id == did && u.role == "donor") = some d →
        sendSingleReminder users log h hName did now₁ =
          (.ok (d.name, d.email),
            log ++ [⟨d.id, h, "donation_reminder", mkSingleMessage d.name hName,
              "console", "sent", some now₁, false⟩])
        ∧ (sendSingleReminder users
            (sendSingleReminder users log h hName did now₁).2 h hName did now₂).1 =
            .ok (d.name, d.email)
        ∧ countReminders (sendSingleReminder users
            (sendSingleReminder users log h hName did now₁).2 h hName did now₂).2
            did h = countReminders log did h + 2) := by
  constructor
  · cases hfd : users.find? (fun u => u.id == did && u.role == "donor") with
    | none =>
      simp only [sendSingleReminder, hfd]
      constructor
      · intro _
        intro u hu hc
        have := List.find?_eq_none.1 hfd u hu
        simp [hc.1, hc.2] at this
      · intro _; trivial
    | some d =>
      have hd := List.find?_some hfd
      simp only [Bool.and_eq_true, beq_iff_eq] at hd
      simp only [sendSingleReminder, hfd]
      constructor
      · intro habs; cases habs
      · intro hall
        exact absurd ⟨hd.1, hd.2⟩ (hall d (List.mem_of_find?_eq_some hfd))
  · intro d hfd
    have hd := List.find?_some hfd
    simp only [Bool.and_eq_true, beq_iff_eq] at hd
    refine ⟨by simp only [sendSingleReminder, hfd], ?_, ?_⟩
    · simp only [sendSingleReminder, hfd]
    · simp only [sendSingleReminder, hfd]
      simp [countReminders, List.filter_append, hd.1]

/-- Witness for C5: with one donor on file, two immediate single-reminder
calls both succeed and produce two records; with an empty user list the call
fails with `NotFound`. -/
theorem sendSingle_spec_witness :
    countReminders (sendSingleReminder [⟨1, "donor", "Dev", "d@x.com", none, none⟩]
      (sendSingleReminder [⟨1, "donor", "Dev", "d@x.com", none, none⟩] [] 7 "H" 1 5).2
      7 "H" 1 5).2 1 7 = 0 + 2
    ∧ (sendSingleReminder [] [] 7 "H" 1 5).1 = .error .notFound :=
  ⟨((sendSingle_spec [⟨1, "donor", "Dev", "d@x.com", none, none⟩] [] 7 "H" 1 5 5).2
      ⟨1, "donor", "Dev", "d@x.com", none, none⟩ (by decide)).2.2,
   (sendSingle_spec [] [] 7 "H" 1 5 5).1.2 (by simp)⟩

/-! ## C9: character and ordering lemmas -/

theorem charToNat_ofNat (n : Nat) (hv : n.isValidChar) : (Char.ofNat n).toNat = n := by
  unfold Char.ofNat
  rw [dif_pos hv]
  rfl

theorem char_eq_of_toNat_eq {a b : Char} (h : a.toNat = b.toNat) : a = b :=
  Char.eq_of_val_eq (UInt32.ext h)

theorem isWhitespace_false_of_toNat_ge (d : Char) (hd : 33 ≤ d.toNat) :
    d.isWhitespace = false := by
  have h32 : d ≠ ' ' := fun he => absurd (he ▸ hd) (by decide)
  have h9 : d ≠ '\t' := fun he => absurd (he ▸ hd) (by decide)
  have h13 : d ≠ '\x0d' := fun he => absurd (he ▸ hd) (by decide)
  have h10 : d ≠ '\x0a' := fun he => absurd (he ▸ hd) (by decide)
  simp [Char.isWhitespace, h32, h9, h13, h10]

theorem isWhitespace_toLowerChar (c : Char) :
    (toLowerChar c).isWhitespace = c.isWhitespace := by
  unfold toLowerChar
  split
  case isTrue hc =>
    have hv : (Char.ofNat (c.toNat + 32)).toNat = c.toNat + 32 :=
      charToNat_ofNat _ (Or.inl (by omega))
    rw [isWhitespace_false_of_toNat_ge (Char.ofNat (c.toNat + 32)) (by rw [hv]; omega),
      isWhitespace_false_of_toNat_ge c (by omega)]
  case isFalse hc => rfl

theorem trimChars_map_toLower (l : List Char) :
    trimChars (l.map toLowerChar) = (trimChars l).map toLowerChar := by
  have hp : (Char.isWhitespace ∘ toLowerChar) = Char.isWhitespace :=
    funext fun c => isWhitespace_toLowerChar c
  unfold trimChars
  rw [List.dropWhile_map, hp, ← List.map_reverse, List.dropWhile_map, hp,
    ← List.map_reverse]

/-- Normalizing by trimming then lowercasing (the spec's order) agrees with
the code's lowercasing then trimming. -/
theorem specNormalize_eq (s : String) : specNormalize s = trimStr (lowerStr s) := by
  unfold specNormalize trimStr lowerStr
  apply congrArg String.mk
  exact (trimChars_map_toLower s.data).symm

theorem strLeB_total (as bs : List Char) :
    strLeB as bs = true ∨ strLeB bs as = true := by
  induction as generalizing bs with
  | nil => exact Or.inl rfl
  | cons a as ih =>
    cases bs with
    | nil => exact Or.inr rfl
    | cons b bs =>
      by_cases hab : a = b
      · subst hab
        rcases ih bs with h | h
        · exact Or.inl (by simpa [strLeB] using h)
        · exact Or.inr (by simpa [strLeB] using h)
      · have hba : ¬ b = a := fun he => hab he.symm
        rcases Nat.lt_trichotomy a.toNat b.toNat with hlt | heq | hgt
        · exact Or.inl (by simp [strLeB, hab, hlt])
        · exact absurd (char_eq_of_toNat_eq heq) hab
        · exact Or.inr (by simp [strLeB, hba, hgt])

theorem strLeB_trans (as bs cs : List Char) (h1 : strLeB as bs = true)
    (h2 : strLeB bs cs = true) : strLeB as cs = true := by
  induction as generalizing bs cs with
  | nil => rfl
  | cons a as ih =>
    cases bs with
    | nil => simp [strLeB] at h1
    | cons b bs =>
      cases cs with
      | nil => simp [strLeB] at h2
      | cons c cs =>
        by_cases hab : a = b <;> by_cases hbc : b = c
        · subst hab; subst hbc
          simp only [strLeB, if_pos rfl] at h1 h2 ⊢
          exact ih bs cs h1 h2
        · subst hab
          simp only [strLeB, if_pos rfl] at h1
          simp only [strLeB, if_neg hbc] at h2 ⊢
          exact h2
        · subst hbc
          simp only [strLeB, if_neg hab] at h1 ⊢
          exact h1
        · simp only [strLeB, if_neg hab] at h1
          simp only [strLeB, if_neg hbc] at h2
          have hlt1 : a.toNat < b.toNat := by simpa using h1
          have hlt2 : b.toNat < c.toNat := by simpa using h2
          have hac : ¬ a = c := fun he => by
            rw [he] at hlt1; omega
          simp [strLeB, hac]
          omega

instance : IsTotal Hospital hospLe :=
  ⟨fun a b => strLeB_total a.name.data b.name.data⟩

instance : IsTrans Hospital hospLe :=
  ⟨fun a b c => strLeB_trans a.name.data b.name.data c.name.data⟩

theorem searchByLocation_eq (hospitals : List Hospital) (term : String) :
    searchByLocation hospitals term =
      if (hospitals.filter fun hh =>
          hh.city == trimStr (lowerStr term) && hh.isActive) = [] then
        List.insertionSort hospLe (hospitals.filter fun hh =>
          (regexTestCI (trimStr (lowerStr term)) hh.city
            || regexTestCI (trimStr (lowerStr term)) hh.address
            || regexTestCI (trimStr (lowerStr term)) hh.state) && hh.isActive)
      else
        List.insertionSort hospLe (hospitals.filter fun hh =>
          hh.city == trimStr (lowerStr term) && hh.isActive) := by
  by_cases hc : (hospitals.filter fun hh =>
      hh.city == trimStr (lowerStr term) && hh.isActive) = []
  · simp [searchByLocation, hc]
  · have hs : (List.insertionSort hospLe (hospitals.filter fun hh =>
        hh.city == trimStr (lowerStr term) && hh.isActive)).isEmpty = false := by
      rw [Bool.eq_false_iff]
      intro habs
      have hnil := List.isEmpty_iff.1 habs
      have hperm := List.perm_insertionSort hospLe (hospitals.filter fun hh =>
        hh.city == trimStr (lowerStr term) && hh.isActive)
      rw [hnil] at hperm
      exact hc (List.Perm.nil_eq hperm).symm
    simp only [searchByLocation]
    rw [hs]
    simp [hc]

/-- C9: hospital search normalizes the term (trim and lowercase commute, so
the spec's trim-then-lowercase equals the code's lowercase-then-trim), uses
an exact match on the stored city exactly when one exists, otherwise — and
only then — falls back to a case-insensitive substring match over city,
address and state with OR semantics (always restricted to active
hospitals), and returns a list sorted by hospital name ascending in both
paths. -/
theorem search_spec (hospitals : List Hospital) (term : String) :
    ((∃ hh ∈ hospitals, hh.city = specNormalize term ∧ hh.isActive = true) →
      ∀ x, x ∈ searchByLocation hospitals term ↔
        x ∈ hospitals ∧ x.city = specNormalize term ∧ x.isActive = true)
    ∧ ((¬ ∃ hh ∈ hospitals, hh.city = specNormalize term ∧ hh.isActive = true) →
      ∀ x, x ∈ searchByLocation hospitals term ↔
        x ∈ hospitals
          ∧ (regexTestCI (specNormalize term) x.city = true
            ∨ regexTestCI (specNormalize term) x.address = true
            ∨ regexTestCI (specNormalize term) x.state = true)
          ∧ x.isActive = true)
    ∧ List.Sorted hospLe (searchByLocation hospitals term) := by
  rw [specNormalize_eq]
  have hiff : ∀ hh : Hospital,
      (hh.city == trimStr (lowerStr term) && hh.isActive) = true ↔
        hh.city = trimStr (lowerStr term) ∧ hh.isActive = true := by
    intro hh
    simp [Bool.and_eq_true, beq_iff_eq]
  refine ⟨?_, ?_, ?_⟩
  · intro hex x
    have hne : (hospitals.filter fun hh =>
        hh.city == trimStr (lowerStr term) && hh.isActive) ≠ [] := by
      rcases hex with ⟨hh, hmem, hcity, hact⟩
      intro habs
      exact (List.filter_eq_nil_iff.1 habs hh hmem) ((hiff hh).2 ⟨hcity, hact⟩)
    rw [searchByLocation_eq, if_neg hne,
      (List.perm_insertionSort hospLe _).mem_iff, List.mem_filter]
    simp [hiff x, and_assoc]
  · intro hnex x
    have hnil : (hospitals.filter fun hh =>
        hh.city == trimStr (lowerStr term) && hh.isActive) = [] := by
      rw [List.filter_eq_nil_iff]
      intro hh hmem hp
      exact hnex ⟨hh, hmem, (hiff hh).1 hp⟩
    rw [searchByLocation_eq, if_pos hnil,
      (List.perm_insertionSort hospLe _).mem_iff, List.mem_filter]
    simp [Bool.and_eq_true, Bool.or_eq_true, and_assoc, or_assoc]
  · rw [searchByLocation_eq]
    by_cases hc : (hospitals.filter fun hh =>
        hh.city == trimStr (lowerStr term) && hh.isActive) = []
    · rw [if_pos hc]
      exact List.sorted_insertionSort hospLe _
    · rw [if_neg hc]
      exact List.sorted_insertionSort hospLe _

/-- Witness for C9: an exact city match suppresses the fallback; with no
exact match, an address substring is found; results are name-sorted. -/
theorem search_spec_witness :
    (⟨"Alpha", "pune", "x", "MH", true⟩ : Hospital) ∈
      searchByLocation
        [⟨"Zeta", "pune", "12 MG Road", "MH", true⟩,
         ⟨"Alpha", "pune", "x", "MH", true⟩] " Pune "
    ∧ (⟨"Zeta", "pune", "12 MG Road", "MH", true⟩ : Hospital) ∈
      searchByLocation
        [⟨"Zeta", "pune", "12 MG Road", "MH", true⟩,
         ⟨"Alpha", "pune", "x", "MH", true⟩] "mg road" := by
  constructor
  · exact ((search_spec
      [⟨"Zeta", "pune", "12 MG Road", "MH", true⟩,
       ⟨"Alpha", "pune", "x", "MH", true⟩] " Pune ").1
      ⟨⟨"Alpha", "pune", "x", "MH", true⟩, by decide, by decide, rfl⟩
      ⟨"Alpha", "pune", "x", "MH", true⟩).2 ⟨by decide, by decide, rfl⟩
  · exact (((search_spec
      [⟨"Zeta", "pune", "12 MG Road", "MH", true⟩,
       ⟨"Alpha", "pune", "x", "MH", true⟩] "mg road").2.1
      (by decide)
      ⟨"Zeta", "pune", "12 MG Road", "MH", true⟩).2
      ⟨by decide, by decide, rfl⟩)

/-! ## C3: lemmas about the bulk-reminder loop -/

theorem wasRecent_eq (log : List NotificationRecord) (d h : Nat) (dAgo t : Int) :
    wasReminderSentRecently log d h dAgo t =
      (remindersFor log d h).any (sentWithin dAgo t) := by
  rw [remindersFor, List.any_filter]
  rfl

theorem remindersFor_append (L T : List NotificationRecord) (d h : Nat) :
    remindersFor (L ++ T) d h = remindersFor L d h ++ remindersFor T d h := by
  simp [remindersFor, List.filter_append]

theorem remindersFor_eq_nil (T : List NotificationRecord) (d h : Nat)
    (hne : ∀ nrec ∈ T, nrec.donor_id ≠ d) : remindersFor T d h = [] := by
  rw [remindersFor, List.filter_eq_nil_iff]
  intro nrec hm
  simp only [Bool.and_eq_true, beq_iff_eq]
  exact fun hc => hne nrec hm hc.1.1

theorem sendStep_log (h : Nat) (hName : String) (now : Int) (st : SendState)
    (u : User) :
    ∃ tail, (sendStep h hName now st u).log = st.log ++ tail
      ∧ ∀ nrec ∈ tail, nrec.donor_id = u.id ∧ nrec.hospital_id = h
        ∧ nrec.type = "donation_reminder" ∧ nrec.sent_at = some now := by
  unfold sendStep
  by_cases he : isDonorEligible u.lastDonation now = true
  · rw [if_pos he]
    by_cases hw : wasReminderSentRecently st.log u.id h 30 now = true
    · rw [if_pos hw]
      exact ⟨[], by simp, by simp⟩
    · rw [if_neg hw]
      refine ⟨[⟨u.id, h, "donation_reminder",
        mkBulkMessage u.name hName (u.bloodGroup.getD ""),
        "console", "sent", some now, false⟩], rfl, ?_⟩
      intro nrec hm
      rw [List.mem_singleton] at hm
      subst hm
      exact ⟨rfl, rfl, rfl, rfl⟩
  · rw [if_neg he]
    exact ⟨[], by simp, by simp⟩

theorem sendStep_skipped_le (h : Nat) (hName : String) (now : Int)
    (st : SendState) (u : User) :
    st.skipped_count ≤ (sendStep h hName now st u).skipped_count := by
  unfold sendStep
  by_cases he : isDonorEligible u.lastDonation now = true
  · rw [if_pos he]
    by_cases hw : wasReminderSentRecently st.log u.id h 30 now = true
    · rw [if_pos hw]
      exact Nat.le_succ _
    · rw [if_neg hw]
  · rw [if_neg he]

theorem foldl_sendStep_log (h : Nat) (hName : String) (now : Int) :
    ∀ (us : List User) (st : SendState),
    ∃ tail, (us.foldl (sendStep h hName now) st).log = st.log ++ tail
      ∧ ∀ nrec ∈ tail, nrec.donor_id ∈ us.map User.id ∧ nrec.hospital_id = h
        ∧ nrec.type = "donation_reminder" ∧ nrec.sent_at = some now := by
  intro us
  induction us with
  | nil => exact fun st => ⟨[], by simp, by simp⟩
  | cons u us ih =>
    intro st
    obtain ⟨t₁, hl₁, hp₁⟩ := sendStep_log h hName now st u
    obtain ⟨t₂, hl₂, hp₂⟩ := ih (sendStep h hName now st u)
    refine ⟨t₁ ++ t₂, ?_, ?_⟩
    · rw [List.foldl_cons, hl₂, hl₁, List.append_assoc]
    · intro nrec hm
      rcases List.mem_append.1 hm with hm | hm
      · obtain ⟨hd, hh, ht, hs⟩ := hp₁ nrec hm
        exact ⟨by simp [hd], hh, ht, hs⟩
      · obtain ⟨hd, hh, ht, hs⟩ := hp₂ nrec hm
        exact ⟨by rw [List.map_cons]; exact List.mem_cons_of_mem _ hd, hh, ht, hs⟩

theorem foldl_sendStep_skipped_le (h : Nat) (hName : String) (now : Int) :
    ∀ (us : List User) (st : SendState),
    st.skipped_count ≤ (us.foldl (sendStep h hName now) st).skipped_count := by
  intro us
  induction us with
  | nil => exact fun st => Nat.le_refl _
  | cons u us ih =>
    intro st
    exact Nat.le_trans (sendStep_skipped_le h hName now st u)
      (ih (sendStep h hName now st u))

theorem foldl_sendStep_around (h : Nat) (hName : String) (now : Int) (D : User)
    (us₁ us₂ : List User) (st : SendState)
    (hne : ∀ u ∈ us₁ ++ us₂, u.id ≠ D.id)
    (helig : isDonorEligible D.lastDonation now = true) :
    (wasReminderSentRecently st.log D.id h 30 now = false →
      remindersFor ((us₁ ++ D :: us₂).foldl (sendStep h hName now) st).log D.id h =
        remindersFor st.log D.id h ++ [mkReminder D h hName now])
    ∧ (wasReminderSentRecently st.log D.id h 30 now = true →
      remindersFor ((us₁ ++ D :: us₂).foldl (sendStep h hName now) st).log D.id h =
        remindersFor st.log D.id h
      ∧ st.skipped_count + 1 ≤
          ((us₁ ++ D :: us₂).foldl (sendStep h hName now) st).skipped_count) := by
  obtain ⟨T₁, hl₁, hp₁⟩ := foldl_sendStep_log h hName now us₁ st
  set st₁ := us₁.foldl (sendStep h hName now) st with hst₁
  have hT₁ : ∀ nrec ∈ T₁, nrec.donor_id ≠ D.id := by
    intro nrec hm
    obtain ⟨hd, _, _, _⟩ := hp₁ nrec hm
    obtain ⟨u, hu, hid⟩ := List.mem_map.1 hd
    rw [← hid]
    exact hne u (List.mem_append_left _ hu)
  have hrf₁ : remindersFor st₁.log D.id h = remindersFor st.log D.id h := by
    rw [hl₁, remindersFor_append, remindersFor_eq_nil T₁ D.id h hT₁, List.append_nil]
  have hwr₁ : wasReminderSentRecently st₁.log D.id h 30 now =
      wasReminderSentRecently st.log D.id h 30 now := by
    rw [wasRecent_eq, wasRecent_eq, hrf₁]
  have hfold : (us₁ ++ D :: us₂).foldl (sendStep h hName now) st =
      us₂.foldl (sendStep h hName now) (sendStep h hName now st₁ D) := by
    rw [List.foldl_append, List.foldl_cons]
  obtain ⟨T₂, hl₂, hp₂⟩ := foldl_sendStep_log h hName now us₂
    (sendStep h hName now st₁ D)
  have hT₂ : ∀ nrec ∈ T₂, nrec.donor_id ≠ D.id := by
    intro nrec hm
    obtain ⟨hd, _, _, _⟩ := hp₂ nrec hm
    obtain ⟨u, hu, hid⟩ := List.mem_map.1 hd
    rw [← hid]
    exact hne u (List.mem_append_right _ hu)
  have hmkf : remindersFor [mkReminder D h hName now] D.id h =
      [mkReminder D h hName now] := by
    simp [remindersFor, mkReminder, List.filter]
  constructor
  · intro hfresh
    have hstep : sendStep h hName now st₁ D =
        ⟨st₁.sent_count + 1, st₁.skipped_count,
          st₁.results ++ [⟨D.name, D.email, "sent"⟩],
          st₁.log ++ [mkReminder D h hName now]⟩ := by
      unfold sendStep mkReminder
      rw [if_pos helig, if_neg (by rw [hwr₁, hfresh]; exact Bool.false_ne_true)]
    rw [hfold, hl₂, hstep]
    have hlogstep : (⟨st₁.sent_count + 1, st₁.skipped_count,
        st₁.results ++ [⟨D.name, D.email, "sent"⟩],
        st₁.log ++ [mkReminder D h hName now]⟩ : SendState).log =
        st₁.log ++ [mkReminder D h hName now] := rfl
    rw [hlogstep, List.append_assoc, remindersFor_append, hrf₁,
      remindersFor_append, remindersFor_eq_nil T₂ D.id h hT₂, List.append_nil, hmkf]
  · intro hrec
    have hstep : sendStep h hName now st₁ D =
        ⟨st₁.sent_count, st₁.skipped_count + 1, st₁.results, st₁.log⟩ := by
      unfold sendStep
      rw [if_pos helig, if_pos (by rw [hwr₁]; exact hrec)]
    constructor
    · rw [hfold, hl₂, hstep]
      have hlogstep : (⟨st₁.sent_count, st₁.skipped_count + 1, st₁.results,
          st₁.log⟩ : SendState).log = st₁.log := rfl
      rw [hlogstep, remindersFor_append, remindersFor_eq_nil T₂ D.id h hT₂,
        List.append_nil, hrf₁]
    · have h1 := foldl_sendStep_skipped_le h hName now us₂ (sendStep h hName now st₁ D)
      rw [hstep] at h1
      have h2 := foldl_sendStep_skipped_le h hName now us₁ st
      rw [← hst₁] at h2
      rw [hfold, hstep]
      have h3 : (⟨st₁.sent_count, st₁.skipped_count + 1, st₁.results,
          st₁.log⟩ : SendState).skipped_count = st₁.skipped_count + 1 := rfl
      rw [h3] at h1
      omega

theorem donors_split (users : List User) (D : User) (hmem : D ∈ users)
    (hrole : D.role = "donor") (hids : (users.map User.id).Nodup) :
    ∃ us₁ us₂, users.filter (fun u => u.role == "donor") = us₁ ++ D :: us₂
      ∧ ∀ u ∈ us₁ ++ us₂, u.id ≠ D.id := by
  have hDd : D ∈ users.filter (fun u => u.role == "donor") :=
    List.mem_filter.2 ⟨hmem, by simp [hrole]⟩
  obtain ⟨us₁, us₂, hsplit⟩ := List.mem_iff_append.mp hDd
  refine ⟨us₁, us₂, hsplit, ?_⟩
  have hsub : List.Sublist (users.filter (fun u => u.role == "donor")) users :=
    List.filter_sublist _
  have hmap : List.Sublist ((us₁ ++ D :: us₂).map User.id)
      (users.map User.id) := by
    rw [← hsplit]
    exact hsub.map User.id
  have hnod : ((us₁ ++ D :: us₂).map User.id).Nodup := hids.sublist hmap
  rw [List.map_append, List.map_cons] at hnod
  rcases List.nodup_append.1 hnod with ⟨_, hDB, hdisj⟩
  intro u hu hid
  rcases List.mem_append.1 hu with hu | hu
  · exact hdisj (hid ▸ List.mem_map_of_mem User.id hu) (List.mem_cons_self _ _)
  · exact (List.nodup_cons.1 hDB).1 (hid ▸ List.mem_map_of_mem User.id hu)

/-- C3: after `send_all_reminders` from hospital `h` at time `t₁` sends a
reminder to donor `D` (creating exactly one new `donation_reminder` record
for the pair, with `sent_at = t₁`), a second call within 30 days adds no
record for `D` and counts `D` among the skipped; once more than 30 days have
passed since `t₁` (and no other recent reminder for the pair exists), a
further call sends to `D` again, appending exactly one new record. -/
theorem sendAll_dedup (users : List User) (log₀ : List NotificationRecord)
    (h : Nat) (hName₁ hName₂ : String) (D : User) (t₁ t₂ : Int)
    (hmem : D ∈ users) (hrole : D.role = "donor")
    (hids : (users.map User.id).Nodup)
    (helig : isDonorEligible D.lastDonation t₁ = true)
    (hfresh : wasReminderSentRecently log₀ D.id h 30 t₁ = false)
    (hle : t₁ ≤ t₂) :
    remindersFor (sendAllReminders users log₀ h hName₁ t₁).log D.id h =
      remindersFor log₀ D.id h ++ [mkReminder D h hName₁ t₁]
    ∧ (t₂ ≤ t₁ + 30 * msPerDay →
        remindersFor (sendAllReminders users
            (sendAllReminders users log₀ h hName₁ t₁).log h hName₂ t₂).log D.id h =
          remindersFor (sendAllReminders users log₀ h hName₁ t₁).log D.id h
        ∧ 1 ≤ (sendAllReminders users
            (sendAllReminders users log₀ h hName₁ t₁).log h hName₂ t₂).skipped_count)
    ∧ (t₁ + 30 * msPerDay < t₂ →
        wasReminderSentRecently log₀ D.id h 30 t₂ = false →
        remindersFor (sendAllReminders users
            (sendAllReminders users log₀ h hName₁ t₁).log h hName₂ t₂).log D.id h =
          remindersFor (sendAllReminders users log₀ h hName₁ t₁).log D.id h
            ++ [mkReminder D h hName₂ t₂]) := by
  obtain ⟨us₁, us₂, hsplit, hne⟩ := donors_split users D hmem hrole hids
  have hS : ∀ (L : List NotificationRecord) (nm : String) (t : Int),
      sendAllReminders users L h nm t =
        (us₁ ++ D :: us₂).foldl (sendStep h nm t) ⟨0, 0, [], L⟩ := by
    intro L nm t
    rw [sendAllReminders, hsplit]
  have helig₂ : isDonorEligible D.lastDonation t₂ = true :=
    isDonorEligible_mono D.lastDonation hle helig
  have hR₁ : remindersFor (sendAllReminders users log₀ h hName₁ t₁).log D.id h =
      remindersFor log₀ D.id h ++ [mkReminder D h hName₁ t₁] := by
    rw [hS log₀ hName₁ t₁]
    exact (foldl_sendStep_around h hName₁ t₁ D us₁ us₂ ⟨0, 0, [], log₀⟩
      hne helig).1 hfresh
  set L₁ := (sendAllReminders users log₀ h hName₁ t₁).log with hL₁
  refine ⟨hR₁, ?_, ?_⟩
  · intro hwin
    have hhit : sentWithin 30 t₂ (mkReminder D h hName₁ t₁) = true := by
      simp only [sentWithin, mkReminder, decide_eq_true_eq]
      linarith
    have hwr₂ : wasReminderSentRecently L₁ D.id h 30 t₂ = true := by
      rw [wasRecent_eq, hR₁, List.any_append]
      simp [hhit]
    have hcall₂ := (foldl_sendStep_around h hName₂ t₂ D us₁ us₂
      ⟨0, 0, [], L₁⟩ hne helig₂).2 hwr₂
    rw [hS L₁ hName₂ t₂]
    exact ⟨hcall₂.1, hcall₂.2⟩
  · intro hafter hfresh₂
    have h1 : (remindersFor log₀ D.id h).any (sentWithin 30 t₂) = false := by
      rw [← wasRecent_eq]
      exact hfresh₂
    have h2 : sentWithin 30 t₂ (mkReminder D h hName₁ t₁) = false := by
      simp only [sentWithin, mkReminder, decide_eq_false_iff_not]
      intro hc
      linarith
    have hwr₂ : wasReminderSentRecently L₁ D.id h 30 t₂ = false := by
      rw [wasRecent_eq, hR₁, List.any_append]
      simp [h1, h2]
    rw [hS L₁ hName₂ t₂]
    exact (foldl_sendStep_around h hName₂ t₂ D us₁ us₂
      ⟨0, 0, [], L₁⟩ hne helig₂).1 hwr₂

/-- Witness for C3 with one donor on file: a repeat bulk send 50 ms later
skips the donor (skipped count 1, no new record beyond the first), while a
repeat more than 30 days later appends exactly one new record. -/
theorem sendAll_dedup_witness :
    (remindersFor (sendAllReminders [⟨1, "donor", "Dev", "d@x.com", none, none⟩]
        (sendAllReminders [⟨1, "donor", "Dev", "d@x.com", none, none⟩]
          [] 7 "H" 100).log 7 "H" 150).log 1 7 =
      remindersFor (sendAllReminders [⟨1, "donor", "Dev", "d@x.com", none, none⟩]
          [] 7 "H" 100).log 1 7
      ∧ 1 ≤ (sendAllReminders [⟨1, "donor", "Dev", "d@x.com", none, none⟩]
        (sendAllReminders [⟨1, "donor", "Dev", "d@x.com", none, none⟩]
          [] 7 "H" 100).log 7 "H" 150).skipped_count)
    ∧ remindersFor (sendAllReminders [⟨1, "donor", "Dev", "d@x.com", none, none⟩]
        (sendAllReminders [⟨1, "donor", "Dev", "d@x.com", none, none⟩]
          [] 7 "H" 100).log 7 "H" (101 + 30 * msPerDay)).log 1 7 =
      remindersFor (sendAllReminders [⟨1, "donor", "Dev", "d@x.com", none, none⟩]
          [] 7 "H" 100).log 1 7
        ++ [mkReminder ⟨1, "donor", "Dev", "d@x.com", none, none⟩ 7 "H"
          (101 + 30 * msPerDay)] :=
  ⟨(sendAll_dedup [⟨1, "donor", "Dev", "d@x.com", none, none⟩] [] 7 "H" "H"
      ⟨1, "donor", "Dev", "d@x.com", none, none⟩ 100 150
      (by decide) rfl (by decide) rfl rfl (by decide)).2.1 (by decide),
   (sendAll_dedup [⟨1, "donor", "Dev", "d@x.com", none, none⟩] [] 7 "H" "H"
      ⟨1, "donor", "Dev", "d@x.com", none, none⟩ 100 (101 + 30 * msPerDay)
      (by decide) rfl (by decide) rfl rfl (by decide)).2.2 (by decide) rfl⟩

end RaktSetu
